import Mathlib

/-!
# Verification of the QEMU run-step argument synthesis

Shallow embedding of `src/builder/qemu/step_run.go`: the argument-synthesis
algorithm of `getCommandArgs` (override ingestion into a multi-value map,
default backfill, flattening into a token sequence), the template-expansion
wrapper `processArgs`, the default-argument builder, and the `Cleanup`
teardown of `stepRun`.

Modelling conventions:
* Go `map[string]T` values are embedded as association lists
  `List (String × T)` with unique keys maintained by the operations
  themselves; Go's unspecified map iteration order is accounted for by
  proving order-insensitivity (permutation invariance) where a claim
  needs it.
* Go `uint` arithmetic is embedded as `Nat` with explicit wrap-around
  modulo `2 ^ w` for a word width `w` (Go's `uint` is 32 or 64 bits).
* The template renderer (`interpolate.Render` with its context) is an
  external collaborator and is passed in as a function
  `String → Except String String`.
* `ui.Say` / `ui.Message` calls are recorded in an output message list.
* An override row (`FlagRow`) always carries its flag key first, so rows
  are embedded as `String × List String` (key, value fragments); the Go
  slice form `[][]string` would panic on an empty row, which is outside
  the data model.
-/

namespace StepRun

/-- Association-list lookup mirroring Go's `m[key]` read (`v, ok := m[k]`):
the first entry whose key matches. -/
def lookupKey (k : String) : List (String × α) → Option α
  | [] => none
  | (key, v) :: rest => if key = k then some v else lookupKey k rest

/-- The keys of an association list, in entry order. -/
def keysOf (m : List (String × α)) : List String :=
  m.map Prod.fst

/-- `inArgs[key] = append(inArgs[key], val)`: append `v` to the bucket of
the (first) entry for `k`. -/
def appendAt (k v : String) : List (String × List String) → List (String × List String)
  | [] => []
  | (key, vs) :: rest =>
    if key = k then (key, vs ++ [v]) :: rest else (key, vs) :: appendAt k v rest

/-- One iteration of the override-ingestion loop (lines 129–138). -/
def addRow (m : List (String × List String)) (row : String × List String) :
    List (String × List String) :=
  let key := row.1
  let val := String.join row.2
  let m' := if (lookupKey key m).isSome then m else m ++ [(key, [])]
  if 0 < val.length then appendAt key val m' else m'

/-- The `inArgs` multi-value map built from the (already rendered)
override rows (lines 129–138). -/
def buildInArgs (rows : List (String × List String)) : List (String × List String) :=
  rows.foldl addRow []

/-- Default backfill (lines 142–148): every default key not already
present receives a one-element bucket holding its default value. -/
def backfillFold (m : List (String × List String)) (defaults : List (String × String)) :
    List (String × List String) :=
  defaults.foldl
    (fun acc kv => if (lookupKey kv.1 acc).isSome then acc else acc ++ [(kv.1, [kv.2])]) m

/-- The merged multi-value map: override ingestion followed by default
backfill. -/
def mergeArgs (rows : List (String × List String)) (defaults : List (String × String)) :
    List (String × List String) :=
  backfillFold (buildInArgs rows) defaults

/-- The emitted token run for one key in the flattening loop
(lines 154–156): `key, v` for each value. -/
def emitPairs (k : String) : List String → List String
  | [] => []
  | v :: vs => k :: v :: emitPairs k vs

/-- The tokens contributed by one map entry in the flattening loop
(lines 153–159): one `key, value` pair per value, or the bare key. -/
def emitEntry (kv : String × List String) : List String :=
  if 0 < kv.2.length then emitPairs kv.1 kv.2 else [kv.1]

/-- The flattening loop as a structural concatenation over entries. -/
def emitAll : List (String × List String) → List String
  | [] => []
  | kv :: rest => emitEntry kv ++ emitAll rest

/-- `outArgs` flattening exactly as the Go loop writes it (lines 151–160):
a fold that appends `key, value` pairs (or the bare key) to the
accumulated output. -/
def flattenArgs (m : List (String × List String)) : List String :=
  m.foldl
    (fun acc kv =>
      if 0 < kv.2.length then kv.2.foldl (fun a v => a ++ [kv.1, v]) acc
      else acc ++ [kv.1]) []

/-- The full merger: the token sequence `getCommandArgs` returns for
(already rendered) override rows and a default map. -/
def mergeTokens (rows : List (String × List String)) (defaults : List (String × String)) :
    List String :=
  flattenArgs (mergeArgs rows defaults)

/-- The declarative value bucket of key `k` from the override rows: the
concatenated fragments of every row for `k`, in row order, keeping only
the non-empty ones. -/
def overrideVals (k : String) : List (String × List String) → List String
  | [] => []
  | (key, frags) :: rows =>
    if key = k then
      (if 0 < (String.join frags).length then [String.join frags] else []) ++ overrideVals k rows
    else overrideVals k rows

/-- The entries strictly before the (first) entry for `k`. -/
def beforeKey (k : String) : List (String × List String) → List (String × List String)
  | [] => []
  | (key, vs) :: rest => if key = k then [] else (key, vs) :: beforeKey k rest

/-- The entries strictly after the (first) entry for `k`. -/
def afterKey (k : String) : List (String × List String) → List (String × List String)
  | [] => []
  | (key, _) :: rest => if key = k then rest else afterKey k rest

/-! ### Characterizing the merger -/

/-- The configuration fields of `*Config` read by `getCommandArgs`. -/
structure Config where
  VMName : String
  MachineType : String
  NetDevice : String
  DiskInterface : String
  DiskCache : String
  DiskDiscard : String
  DiskImage : Bool
  Headless : Bool
  Accelerator : String
  Format : String
  OutputDir : String
  HTTPDir : String
  QemuArgs : List (String × List String)

/-- The runtime facts read from the state bag (`iso_path`, `vnc_port`,
`sshHostPort`, `http_port`, optional `floppy_path`). -/
structure RunState where
  isoPath : String
  vncPort : Nat
  sshHostPort : Nat
  httpPort : Nat
  floppyPath : Option String

/-- Go `uint` subtraction `a - b` on a `w`-bit word: wraps modulo `2 ^ w`
(meaningful for `b ≤ 2 ^ w`, `a < 2 ^ w`). -/
def usub (w a b : Nat) : Nat :=
  (a + (2 ^ w - b)) % 2 ^ w

/-- Line 66: `fmt.Sprintf("0.0.0.0:%d", vncPort-5900)` with `vncPort : uint`. -/
def vncValue (w vncPort : Nat) : String :=
  "0.0.0.0:" ++ toString (usub w vncPort 5900)

/-- `filepath.Join` of the output directory and the image file name.
The Go stdlib collaborator also lexically cleans the joined path; no
claim depends on that, so it is embedded as plain separator joining. -/
def pathJoin (dir name : String) : String :=
  dir ++ "/" ++ name

/-- Go map assignment `m[k] = v`: replace the entry for `k`, or append a
new one. -/
def setKey (k v : String) : List (String × String) → List (String × String)
  | [] => [(k, v)]
  | (key, w) :: rest => if key = k then (k, v) :: rest else (key, w) :: setKey k v rest

/-- Go map read with zero value, `m[k]` (used by the `+=` on
`"-machine"`). -/
def getKeyD (k : String) (m : List (String × String)) : String :=
  (lookupKey k m).getD ""

/-- The headless warning of lines 74–76. -/
def headlessWarning : String :=
  "WARNING: The VM will be started in headless mode, as configured.\n" ++
    "In headless mode, errors during the boot sequence or OS setup\n" ++
    "won't be easily visible. Use at your own discretion."

/-- The no-acceleration warning of lines 97–98. -/
def accelWarning : String :=
  "WARNING: The VM will be started with no hardware acceleration.\n" ++
    "The installation may take considerably longer to finish.\n"

/-- The `ui.Say` of line 110. -/
def overridingMsg : String :=
  "Overriding defaults Qemu arguments with QemuArgs..."

/-- The `defaultArgs` map of lines 71–106 together with the `ui` messages
emitted while building it, in emission order. -/
def buildDefaultArgs (w : Nat) (bootDrive : String) (c : Config) (st : RunState) :
    List (String × String) × List String :=
  let vnc := vncValue w st.vncPort
  let vmName := c.VMName
  let imgPath := pathJoin c.OutputDir (vmName ++ "." ++ c.Format.toLower)
  let start : List (String × String) × List String :=
    if c.Headless then ([], [headlessWarning]) else ([("-display", "sdl")], [])
  let m1 := setKey "-name" vmName start.1
  let m2 := setKey "-machine" ("type=" ++ c.MachineType) m1
  let m3 := setKey "-netdev"
    ("user,id=user.0,hostfwd=tcp::" ++ toString st.sshHostPort ++ "-:22") m2
  let m4 := setKey "-device" (c.NetDevice ++ ",netdev=user.0") m3
  let m5 := setKey "-drive"
    ("file=" ++ imgPath ++ ",if=" ++ c.DiskInterface ++ ",cache=" ++ c.DiskCache ++
      ",discard=" ++ c.DiskDiscard) m4
  let m6 := if c.DiskImage then m5 else setKey "-cdrom" st.isoPath m5
  let m7 := setKey "-boot" bootDrive m6
  let m8 := setKey "-m" "512M" m7
  let m9 := setKey "-vnc" vnc m8
  let accel : List (String × String) × List String :=
    if c.Accelerator ≠ "none" then
      (setKey "-machine" (getKeyD "-machine" m9 ++ ",accel=" ++ c.Accelerator) m9, start.2)
    else (m9, start.2 ++ [accelWarning])
  let final : List (String × String) :=
    match st.floppyPath with
    | some fp => setKey "-fda" fp accel.1
    | none => accel.1
  (final, accel.2)

/-- The inner loop of `processArgs` (lines 176–181) over one row's value
fragments: render each in order, returning the first renderer error. -/
def renderRow (render : String → Except String String) :
    List String → Except String (List String)
  | [] => Except.ok []
  | f :: fs =>
    match render f with
    | Except.error e => Except.error e
    | Except.ok v =>
      match renderRow render fs with
      | Except.error e => Except.error e
      | Except.ok vs => Except.ok (v :: vs)

/-- `processArgs` (lines 165–185): render every element of every override
row (the key, then its fragments, row by row), returning the first
renderer error; on success the fully rendered rows.  The renderer
(`interpolate.Render` closed over its context) is passed in. -/
def processArgs (render : String → Except String String) :
    List (String × List String) → Except String (List (String × List String))
  | [] => Except.ok []
  | row :: rest =>
    match render row.1 with
    | Except.error e => Except.error e
    | Except.ok k =>
      match renderRow render row.2 with
      | Except.error e => Except.error e
      | Except.ok vs =>
        match processArgs render rest with
        | Except.error e => Except.error e
        | Except.ok rows => Except.ok ((k, vs) :: rows)

/-- `getCommandArgs` (lines 59–162): build the defaults, render and ingest
the overrides when present, backfill, and flatten.  Returns the result
(or the propagated renderer error) together with the `ui` messages. -/
def getCommandArgs (render : String → Except String String) (w : Nat) (bootDrive : String)
    (c : Config) (st : RunState) : Except String (List String) × List String :=
  let built := buildDefaultArgs w bootDrive c st
  if 0 < c.QemuArgs.length then
    match processArgs render c.QemuArgs with
    | Except.error e => (Except.error e, built.2 ++ [overridingMsg])
    | Except.ok newRows => (Except.ok (mergeTokens newRows built.1), built.2 ++ [overridingMsg])
  else
    (Except.ok (mergeTokens [] built.1), built.2)

/-! ## `stepRun.Cleanup` (lines 50–57) -/

/-- An observable interaction of `Cleanup`: a `driver.Stop()` call or a
`ui.Error` report. -/
inductive CleanupEvent where
  | stopCall : CleanupEvent
  | uiError : String → CleanupEvent
deriving DecidableEq, BEq

/-- `stepRun.Cleanup`: call `driver.Stop()` once; when it fails, report
the error through the UI sink.  The result of the stop call is passed in;
the function is total (it always returns normally) and produces the trace
of its interactions. -/
def cleanup (stopResult : Except String Unit) : List CleanupEvent :=
  CleanupEvent.stopCall ::
    (match stopResult with
     | Except.ok _ => []
     | Except.error e => [CleanupEvent.uiError ("Error shutting down VM: " ++ e)])

/-! ### Concrete fixtures for instantiating the theorems -/

/-- A renderer with no placeholders: every fragment renders to itself. -/
def renderId : String → Except String String := fun s => Except.ok s

/-- A renderer that fails on the marker fragment `"BAD"` (an undefined
placeholder) and is the identity elsewhere. -/
def renderBad : String → Except String String :=
  fun s => if s = "BAD" then Except.error "missing placeholder" else Except.ok s

/-- A concrete configuration. -/
def mkConfig (headless : Bool) (qemuArgs : List (String × List String)) : Config :=
  { VMName := "packer-test"
    MachineType := "pc"
    NetDevice := "virtio-net"
    DiskInterface := "virtio"
    DiskCache := "writeback"
    DiskDiscard := "ignore"
    DiskImage := false
    Headless := headless
    Accelerator := "kvm"
    Format := "qcow2"
    OutputDir := "output"
    HTTPDir := "http"
    QemuArgs := qemuArgs }

/-- A concrete runtime state. -/
def stExample : RunState :=
  { isoPath := "image.iso"
    vncPort := 5905
    sshHostPort := 2222
    httpPort := 8080
    floppyPath := none }

/-- A configuration with one override row for `"-machine"`. -/
def cfgOverride : Config :=
  mkConfig false [("-machine", ["type=pc,accel=kvm"])]

/-- A configuration whose override row contains a failing fragment. -/
def cfgBad : Config :=
  mkConfig false [("-device", ["BAD"])]

/-- The default map `buildDefaultArgs` computes for `cfgOverride` /
`stExample` at width 64 with boot drive `"c"`; its value is
`[-display sdl, -name packer-test, -machine type=pc,accel=kvm, -netdev
user,id=user.0,hostfwd=tcp::2222-:22, -device virtio-net,netdev=user.0,
-drive file=output/packer-test.qcow2,..., -cdrom image.iso, -boot c,
-m 512M, -vnc 0.0.0.0:5]`. -/
def defaultsExample : List (String × String) :=
  (buildDefaultArgs 64 "c" cfgOverride stExample).1

/-- A configuration with no override rows at all (the empty
OverrideSpec of Scenario A). -/
def cfgEmpty : Config :=
  mkConfig false []

/-- The default map `buildDefaultArgs` computes for `cfgEmpty` /
`stExample` at width 64 with boot drive `"c"` (the same flag values as
`defaultsExample`, since the builder never reads the override rows). -/
def defaultsEmpty : List (String × String) :=
  (buildDefaultArgs 64 "c" cfgEmpty stExample).1

/-- Override rows for the determinism claim. -/
def rowsW : List (String × List String) := [("-device", ["virtio-net"])]

/-- A default map, in one iteration order. -/
def dW1 : List (String × String) := [("-m", "512M"), ("-boot", "dc")]

/-- The same default map, in the other iteration order. -/
def dW2 : List (String × String) := [("-boot", "dc"), ("-m", "512M")]

/-! ## Lemmas and claim theorems -/

@[simp] theorem lookupKey_nil (k : String) : lookupKey k ([] : List (String × α)) = none := rfl

theorem lookupKey_cons (k key : String) (v : α) (rest : List (String × α)) :
    lookupKey k ((key, v) :: rest) = if key = k then some v else lookupKey k rest := rfl

@[simp] theorem keysOf_nil : keysOf ([] : List (String × α)) = [] := rfl

@[simp] theorem keysOf_cons (p : String × α) (m : List (String × α)) :
    keysOf (p :: m) = p.1 :: keysOf m := rfl

theorem keysOf_append (m₁ m₂ : List (String × α)) :
    keysOf (m₁ ++ m₂) = keysOf m₁ ++ keysOf m₂ := by
  simp [keysOf]

theorem lookupKey_eq_none_iff (k : String) (m : List (String × α)) :
    lookupKey k m = none ↔ k ∉ keysOf m := by
  induction m with
  | nil => simp
  | cons p rest ih =>
    obtain ⟨key, v⟩ := p
    by_cases h : key = k
    · subst h
      simp [lookupKey_cons]
    · simp [lookupKey_cons, h, ih, Ne.symm h]

theorem lookupKey_isSome_iff (k : String) (m : List (String × α)) :
    (lookupKey k m).isSome = true ↔ k ∈ keysOf m := by
  cases hl : lookupKey k m with
  | none => simp [(lookupKey_eq_none_iff k m).mp hl]
  | some v =>
    have hmem : k ∈ keysOf m := by
      by_contra hk
      rw [← lookupKey_eq_none_iff, hl] at hk
      exact Option.noConfusion hk
    simp [hmem]

theorem lookupKey_append (k : String) (m₁ m₂ : List (String × α)) :
    lookupKey k (m₁ ++ m₂) =
      match lookupKey k m₁ with
      | some v => some v
      | none => lookupKey k m₂ := by
  induction m₁ with
  | nil => simp
  | cons p rest ih =>
    obtain ⟨key, v⟩ := p
    by_cases h : key = k <;> simp [lookupKey_cons, h, ih]

theorem lookupKey_eq_some_of_mem_of_nodup (k : String) (v : α) (m : List (String × α))
    (hnd : (keysOf m).Nodup) (hmem : (k, v) ∈ m) : lookupKey k m = some v := by
  induction m with
  | nil => simp at hmem
  | cons p rest ih =>
    obtain ⟨key, w⟩ := p
    simp only [keysOf_cons, List.nodup_cons] at hnd
    rcases List.mem_cons.mp hmem with h | h
    · rw [Prod.mk.injEq] at h
      simp [lookupKey_cons, h.1, h.2]
    · have hk : key ≠ k := by
        intro he
        subst he
        exact hnd.1 (by simpa [keysOf] using List.mem_map_of_mem Prod.fst h)
      simp [lookupKey_cons, hk, ih hnd.2 h]

theorem mem_of_lookupKey_eq_some (k : String) (v : α) (m : List (String × α))
    (h : lookupKey k m = some v) : (k, v) ∈ m := by
  induction m with
  | nil => simp at h
  | cons p rest ih =>
    obtain ⟨key, w⟩ := p
    rw [lookupKey_cons] at h
    split at h
    · next heq =>
      injection h with hv
      subst heq
      subst hv
      exact List.mem_cons_self _ _
    · exact List.mem_cons_of_mem _ (ih h)

/-- Permutations of an association list with unique keys have the same
lookup function.  This is what makes Go's arbitrary map iteration order
harmless for the per-key view of the result. -/
theorem lookupKey_eq_of_perm (k : String) (m₁ m₂ : List (String × α))
    (hperm : m₁.Perm m₂) (hnd : (keysOf m₁).Nodup) :
    lookupKey k m₁ = lookupKey k m₂ := by
  have hnd₂ : (keysOf m₂).Nodup := (hperm.map Prod.fst).nodup_iff.mp hnd
  cases h₁ : lookupKey k m₁ with
  | none =>
    rw [lookupKey_eq_none_iff] at h₁
    have : k ∉ keysOf m₂ := fun hmem =>
      h₁ ((hperm.map Prod.fst).mem_iff.mpr hmem)
    rw [eq_comm, ← Option.not_isSome_iff_eq_none] at *
    intro hs
    exact this ((lookupKey_isSome_iff k m₂).mp hs)
  | some v =>
    have hmem : (k, v) ∈ m₂ := hperm.mem_iff.mp (mem_of_lookupKey_eq_some k v m₁ h₁)
    exact (lookupKey_eq_some_of_mem_of_nodup k v m₂ hnd₂ hmem).symm

/-! ## The argument merger (`getCommandArgs`, lines 108–162)

An override row is `(key, fragments)`.  Ingestion (lines 129–138):
`key := qemuArgs[0]`, `val := strings.Join(qemuArgs[1:], "")`; the key is
registered with an empty bucket if new, and `val` is appended to its
bucket only when non-empty.  Backfill (lines 142–148) inserts each
default key absent from the map with a one-element bucket.  Flatten
(lines 151–160) emits `key, value` per value, or the bare `key` for an
empty bucket. -/

theorem lookupKey_appendAt (k key v : String) (m : List (String × List String)) :
    lookupKey k (appendAt key v m) =
      if key = k then (lookupKey k m).map (fun b => b ++ [v]) else lookupKey k m := by
  induction m with
  | nil => simp [appendAt]
  | cons p rest ih =>
    obtain ⟨key', vs⟩ := p
    by_cases h1 : key' = key
    · subst h1
      by_cases h2 : key' = k <;> simp [appendAt, lookupKey_cons, h2]
    · by_cases h2 : key' = k
      · subst h2
        have : ¬ key = key' := fun h => h1 h.symm
        simp [appendAt, h1, lookupKey_cons, this, ih]
      · simp [appendAt, h1, lookupKey_cons, h2, ih]

theorem keysOf_appendAt (k v : String) (m : List (String × List String)) :
    keysOf (appendAt k v m) = keysOf m := by
  induction m with
  | nil => rfl
  | cons p rest ih =>
    obtain ⟨key, vs⟩ := p
    by_cases h : key = k <;> simp [appendAt, h, ih]

theorem lookupKey_addRow (k : String) (m : List (String × List String))
    (row : String × List String) :
    lookupKey k (addRow m row) =
      if row.1 = k then
        some ((lookupKey k m).getD [] ++
          (if 0 < (String.join row.2).length then [String.join row.2] else []))
      else lookupKey k m := by
  obtain ⟨key, frags⟩ := row
  simp only [addRow]
  have hm' : lookupKey k (if (lookupKey key m).isSome then m else m ++ [(key, [])]) =
      if key = k then some ((lookupKey k m).getD []) else lookupKey k m := by
    by_cases hk : key = k
    · subst hk
      cases hl : lookupKey key m with
      | none => simp [hl, lookupKey_append, lookupKey_cons]
      | some b => simp [hl]
    · cases hl : lookupKey key m with
      | none =>
        simp only [hl, Option.isSome_none, Bool.false_eq_true, if_false, lookupKey_append]
        cases h2 : lookupKey k m <;> simp [lookupKey_cons, hk]
      | some b => simp [hl, hk]
  by_cases hv : 0 < (String.join frags).length
  · rw [if_pos hv, lookupKey_appendAt, hm']
    by_cases hk : key = k <;> simp [hk, hv]
  · rw [if_neg hv, hm']
    by_cases hk : key = k <;> simp [hk, hv]

theorem keysOf_addRow (m : List (String × List String)) (row : String × List String) :
    keysOf (addRow m row) =
      if (lookupKey row.1 m).isSome then keysOf m else keysOf m ++ [row.1] := by
  obtain ⟨key, frags⟩ := row
  simp only [addRow]
  by_cases hv : 0 < (String.join frags).length
  · cases hl : lookupKey key m <;>
      simp [hl, hv, keysOf_appendAt, keysOf_append]
  · cases hl : lookupKey key m <;> simp [hl, hv, keysOf_append]

theorem nodup_keysOf_addRow (m : List (String × List String)) (row : String × List String)
    (hnd : (keysOf m).Nodup) : (keysOf (addRow m row)).Nodup := by
  rw [keysOf_addRow]
  cases hl : lookupKey row.1 m with
  | some b => simpa using hnd
  | none =>
    have hmem : row.1 ∉ keysOf m := (lookupKey_eq_none_iff _ _).mp hl
    simp only [Option.isSome_none, Bool.false_eq_true, if_false]
    rw [List.nodup_append]
    refine ⟨hnd, List.nodup_singleton _, ?_⟩
    intro a ha hb
    rw [List.mem_singleton] at hb
    subst hb
    exact hmem ha

theorem lookupKey_foldl_addRow (rows : List (String × List String)) :
    ∀ (m : List (String × List String)) (k : String),
      lookupKey k (rows.foldl addRow m) =
        match lookupKey k m with
        | some b => some (b ++ overrideVals k rows)
        | none => if k ∈ keysOf rows then some (overrideVals k rows) else none := by
  induction rows with
  | nil =>
    intro m k
    cases h : lookupKey k m <;> simp [overrideVals, h]
  | cons row rest ih =>
    intro m k
    obtain ⟨key, frags⟩ := row
    rw [List.foldl_cons, ih]
    rw [lookupKey_addRow]
    by_cases hk : key = k
    · subst hk
      cases hl : lookupKey key m with
      | none => simp [hl, overrideVals]
      | some b => simp [hl, overrideVals]
    · simp only [hk, if_false]
      cases hl : lookupKey k m with
      | none => simp [hl, overrideVals, hk, keysOf_cons, Ne.symm hk]
      | some b => simp [hl, overrideVals, hk]

theorem lookupKey_buildInArgs (rows : List (String × List String)) (k : String) :
    lookupKey k (buildInArgs rows) =
      if k ∈ keysOf rows then some (overrideVals k rows) else none := by
  rw [buildInArgs, lookupKey_foldl_addRow rows [] k]
  simp

theorem nodup_keysOf_buildInArgs (rows : List (String × List String)) :
    (keysOf (buildInArgs rows)).Nodup := by
  suffices h : ∀ m : List (String × List String), (keysOf m).Nodup →
      (keysOf (rows.foldl addRow m)).Nodup by
    exact h [] (by simp [keysOf])
  induction rows with
  | nil => intro m hm; simpa using hm
  | cons row rest ih =>
    intro m hm
    exact ih _ (nodup_keysOf_addRow m row hm)

theorem lookupKey_backfillFold (defaults : List (String × String)) :
    ∀ (m : List (String × List String)) (k : String),
      lookupKey k (backfillFold m defaults) =
        match lookupKey k m with
        | some b => some b
        | none => (lookupKey k defaults).map (fun v => [v]) := by
  induction defaults with
  | nil =>
    intro m k
    cases h : lookupKey k m <;> simp [backfillFold, h]
  | cons kv rest ih =>
    intro m k
    obtain ⟨key, v⟩ := kv
    rw [backfillFold, List.foldl_cons]
    show lookupKey k (backfillFold _ rest) = _
    rw [ih]
    by_cases hk : key = k
    · subst hk
      cases hl : lookupKey key m with
      | none => simp [hl, lookupKey_append, lookupKey_cons]
      | some b => simp [hl]
    · cases hl : lookupKey key m with
      | none =>
        simp only [hl, Option.isSome_none, Bool.false_eq_true, if_false]
        rw [lookupKey_append]
        cases h2 : lookupKey k m <;> simp [h2, lookupKey_cons, hk]
      | some b => simp [hl, lookupKey_cons, hk]

theorem nodup_keysOf_backfillFold (defaults : List (String × String)) :
    ∀ m : List (String × List String), (keysOf m).Nodup →
      (keysOf (backfillFold m defaults)).Nodup := by
  induction defaults with
  | nil => intro m hm; simpa [backfillFold] using hm
  | cons kv rest ih =>
    intro m hm
    show (keysOf (backfillFold _ rest)).Nodup
    cases hl : lookupKey kv.1 m with
    | some b => simpa [hl] using ih m hm
    | none =>
      have hmem : kv.1 ∉ keysOf m := (lookupKey_eq_none_iff _ _).mp hl
      have : (keysOf (m ++ [(kv.1, [kv.2])])).Nodup := by
        rw [keysOf_append, List.nodup_append]
        refine ⟨hm, List.nodup_singleton _, ?_⟩
        intro a ha hb
        simp only [keysOf_cons, keysOf_nil, List.mem_singleton] at hb
        subst hb
        exact hmem ha
      simpa [hl] using ih _ this

theorem lookupKey_mergeArgs (rows : List (String × List String))
    (defaults : List (String × String)) (k : String) :
    lookupKey k (mergeArgs rows defaults) =
      if k ∈ keysOf rows then some (overrideVals k rows)
      else (lookupKey k defaults).map (fun v => [v]) := by
  rw [mergeArgs, lookupKey_backfillFold defaults (buildInArgs rows) k, lookupKey_buildInArgs]
  by_cases h : k ∈ keysOf rows <;> simp [h]

theorem nodup_keysOf_mergeArgs (rows : List (String × List String))
    (defaults : List (String × String)) : (keysOf (mergeArgs rows defaults)).Nodup :=
  nodup_keysOf_backfillFold defaults (buildInArgs rows) (nodup_keysOf_buildInArgs rows)

theorem mem_keysOf_mergeArgs (rows : List (String × List String))
    (defaults : List (String × String)) (k : String) :
    k ∈ keysOf (mergeArgs rows defaults) ↔ k ∈ keysOf rows ∨ k ∈ keysOf defaults := by
  rw [← lookupKey_isSome_iff, lookupKey_mergeArgs]
  by_cases h : k ∈ keysOf rows
  · simp [h]
  · rw [if_neg h, or_iff_right h, ← lookupKey_isSome_iff]
    cases h2 : lookupKey k defaults <;> simp [h2]

/-! ### Flattening -/

theorem foldl_emit_inner (k : String) (vs : List String) :
    ∀ acc : List String, vs.foldl (fun a v => a ++ [k, v]) acc = acc ++ emitPairs k vs := by
  induction vs with
  | nil => intro acc; simp [emitPairs]
  | cons v rest ih =>
    intro acc
    rw [List.foldl_cons, ih]
    simp [emitPairs]

theorem flattenArgs_eq_emitAll (m : List (String × List String)) :
    flattenArgs m = emitAll m := by
  suffices h : ∀ acc : List String,
      m.foldl
        (fun acc kv =>
          if 0 < kv.2.length then kv.2.foldl (fun a v => a ++ [kv.1, v]) acc
          else acc ++ [kv.1]) acc = acc ++ emitAll m by
    simpa using h []
  induction m with
  | nil => intro acc; simp [emitAll]
  | cons kv rest ih =>
    intro acc
    rw [List.foldl_cons]
    by_cases hv : 0 < kv.2.length
    · rw [if_pos hv, foldl_emit_inner, ih]
      simp [emitAll, emitEntry, hv]
    · rw [if_neg hv, ih]
      simp [emitAll, emitEntry, hv]

theorem emitAll_append (m₁ m₂ : List (String × List String)) :
    emitAll (m₁ ++ m₂) = emitAll m₁ ++ emitAll m₂ := by
  induction m₁ with
  | nil => simp [emitAll]
  | cons kv rest ih => simp [emitAll, ih]

theorem emitEntry_of_pos (k : String) (vs : List String) (h : 0 < vs.length) :
    emitEntry (k, vs) = emitPairs k vs := by
  simp [emitEntry, h]

theorem emitEntry_of_empty (k : String) : emitEntry (k, []) = [k] := by
  simp [emitEntry]

/-- A map with unique keys splits around its (unique) entry for `k`. -/
theorem decomp_of_lookupKey (k : String) (m : List (String × List String))
    (vs : List String) (hnd : (keysOf m).Nodup) (h : lookupKey k m = some vs) :
    m = beforeKey k m ++ (k, vs) :: afterKey k m
      ∧ k ∉ keysOf (beforeKey k m) ∧ k ∉ keysOf (afterKey k m) := by
  induction m with
  | nil => simp at h
  | cons p rest ih =>
    obtain ⟨key, ws⟩ := p
    simp only [keysOf_cons, List.nodup_cons] at hnd
    by_cases hk : key = k
    · subst hk
      rw [lookupKey_cons, if_pos rfl, Option.some.injEq] at h
      subst h
      refine ⟨by simp [beforeKey, afterKey], by simp [beforeKey, keysOf], ?_⟩
      simp only [afterKey, if_pos rfl]
      exact hnd.1
    · rw [lookupKey_cons, if_neg hk] at h
      obtain ⟨hdec, hb, ha⟩ := ih hnd.2 h
      refine ⟨?_, ?_, ?_⟩
      · simp only [beforeKey, afterKey, if_neg hk]
        rw [List.cons_append, ← hdec]
      · simp only [beforeKey, if_neg hk, keysOf_cons, List.mem_cons]
        rintro (h1 | h1)
        · exact hk h1.symm
        · exact hb h1
      · simpa [afterKey, if_neg hk] using ha

/-- Flattening a split map: the tokens of the entry for `k` sit between
the tokens of the other entries. -/
theorem mergeTokens_decomp (rows : List (String × List String))
    (defaults : List (String × String)) (k : String) (vs : List String)
    (h : lookupKey k (mergeArgs rows defaults) = some vs) :
    mergeArgs rows defaults =
        beforeKey k (mergeArgs rows defaults) ++ (k, vs) :: afterKey k (mergeArgs rows defaults)
      ∧ k ∉ keysOf (beforeKey k (mergeArgs rows defaults))
      ∧ k ∉ keysOf (afterKey k (mergeArgs rows defaults))
      ∧ mergeTokens rows defaults =
          emitAll (beforeKey k (mergeArgs rows defaults)) ++ emitEntry (k, vs) ++
            emitAll (afterKey k (mergeArgs rows defaults)) := by
  obtain ⟨hdec, hb, ha⟩ :=
    decomp_of_lookupKey k (mergeArgs rows defaults) vs (nodup_keysOf_mergeArgs rows defaults) h
  refine ⟨hdec, hb, ha, ?_⟩
  rw [mergeTokens, flattenArgs_eq_emitAll]
  conv_lhs => rw [hdec]
  rw [emitAll_append]
  simp [emitAll, List.append_assoc]

/-! ## Configuration, runtime state, and the default-argument builder
(`getCommandArgs`, lines 59–106) -/

/-! ### Supporting lemmas: uint arithmetic, default map, renderer errors -/

theorem usub_eq_sub (w a : Nat) (h1 : 5900 ≤ a) (h2 : a < 2 ^ w) :
    usub w a 5900 = a - 5900 := by
  have h3 : 5900 < 2 ^ w := lt_of_le_of_lt h1 h2
  have key : a + (2 ^ w - 5900) = (a - 5900) + 2 ^ w := by omega
  rw [usub, key, Nat.add_mod_right, Nat.mod_eq_of_lt (by omega)]

theorem usub_wrap (w a : Nat) (h1 : 5900 ≤ 2 ^ w) (h3 : a < 5900) :
    usub w a 5900 = 2 ^ w - (5900 - a) := by
  have hlt : a + (2 ^ w - 5900) < 2 ^ w := by omega
  rw [usub, Nat.mod_eq_of_lt hlt]
  omega

theorem usub_emod_int (w a : Nat) (h1 : 5900 ≤ 2 ^ w) :
    ((usub w a 5900 : Nat) : Int) = ((a : Int) - 5900) % ((2 : Int) ^ w) := by
  rw [usub]
  push_cast [Nat.cast_sub h1]
  have key : ((a : Int) + ((2 : Int) ^ w - 5900)) = ((a : Int) - 5900) + (2 : Int) ^ w * 1 := by
    ring
  rw [key, Int.add_mul_emod_self_left]

theorem lookupKey_setKey (k key v : String) (m : List (String × String)) :
    lookupKey k (setKey key v m) = if key = k then some v else lookupKey k m := by
  induction m with
  | nil => simp [setKey, lookupKey_cons]
  | cons p rest ih =>
    obtain ⟨key', w⟩ := p
    by_cases h1 : key' = key
    · subst h1
      by_cases h2 : key' = k <;> simp [setKey, lookupKey_cons, h2]
    · by_cases h2 : key' = k
      · subst h2
        have hne : ¬ key = key' := fun h => h1 h.symm
        simp [setKey, h1, lookupKey_cons, hne]
      · simp [setKey, h1, lookupKey_cons, h2, ih]

theorem renderRow_error_of_mem (render : String → Except String String) (l : List String)
    (h : ∃ f ∈ l, ∃ e, render f = Except.error e) :
    ∃ e, renderRow render l = Except.error e := by
  induction l with
  | nil => simp at h
  | cons f₀ rest ih =>
    cases hr : render f₀ with
    | error e => exact ⟨e, by rw [renderRow, hr]⟩
    | ok v =>
      have hrest : ∃ f ∈ rest, ∃ e, render f = Except.error e := by
        obtain ⟨f, hf, e, he⟩ := h
        rcases List.mem_cons.mp hf with h1 | h1
        · subst h1
          rw [hr] at he
          exact absurd he (by simp)
        · exact ⟨f, h1, e, he⟩
      obtain ⟨e, he⟩ := ih hrest
      exact ⟨e, by rw [renderRow, hr, he]⟩

theorem processArgs_error_of_fragment (render : String → Except String String)
    (args : List (String × List String))
    (h : ∃ row ∈ args,
        (∃ e, render row.1 = Except.error e) ∨ ∃ f ∈ row.2, ∃ e, render f = Except.error e) :
    ∃ e, processArgs render args = Except.error e := by
  induction args with
  | nil => simp at h
  | cons row₀ rest ih =>
    cases hk : render row₀.1 with
    | error e => exact ⟨e, by rw [processArgs, hk]⟩
    | ok k =>
      cases hvs : renderRow render row₀.2 with
      | error e => exact ⟨e, by rw [processArgs, hk, hvs]⟩
      | ok vs =>
        have hrest : ∃ row ∈ rest,
            (∃ e, render row.1 = Except.error e) ∨
              ∃ f ∈ row.2, ∃ e, render f = Except.error e := by
          obtain ⟨row, hmem, hcase⟩ := h
          rcases List.mem_cons.mp hmem with h1 | h1
          · subst h1
            rcases hcase with ⟨e, he⟩ | hfrag
            · rw [hk] at he
              exact absurd he (by simp)
            · obtain ⟨e, he⟩ := renderRow_error_of_mem render row.2 hfrag
              rw [hvs] at he
              exact absurd he (by simp)
          · exact ⟨row, h1, hcase⟩
        obtain ⟨e, he⟩ := ih hrest
        exact ⟨e, by rw [processArgs, hk, hvs, he]⟩

@[simp] theorem beq_uiError_stopCall (s : String) :
    (CleanupEvent.uiError s == CleanupEvent.stopCall) = false := rfl

@[simp] theorem beq_stopCall_self :
    (CleanupEvent.stopCall == CleanupEvent.stopCall) = true := rfl

/-! ### Claim theorems -/

/-- C7 (counterexample): the claim that the `-vnc` value is always
`0.0.0.0:` followed by the discovered VNC port minus 5900 fails for a
discovered port below the offset: at port 0 on a 64-bit word the code
produces the wrapped `uint` value, not the integer difference `-5900`. -/
theorem vnc_offset_cex :
    vncValue 64 0 ≠ "0.0.0.0:" ++ toString ((0 : Int) - 5900)
      ∧ vncValue 64 0 = "0.0.0.0:18446744073709545716" := by
  constructor
  · decide
  · rfl

/-- C7 (amended): whenever the discovered VNC port is at least 5900 (and
representable in the word), the `-vnc` default value is exactly
`0.0.0.0:` followed by the port minus 5900, formatted as `host:port`;
below 5900 the `uint` subtraction wraps instead (see the wrap theorem). -/
theorem vncValue_sub_of_ge (w p : Nat) (h1 : 5900 ≤ p) (h2 : p < 2 ^ w) :
    vncValue w p = "0.0.0.0:" ++ toString (p - 5900) := by
  rw [vncValue, usub_eq_sub w p h1 h2]

theorem vncValue_sub_of_ge_witness :
    5900 ≤ 5905 ∧ 5905 < 2 ^ 64
      ∧ vncValue 64 5905 = "0.0.0.0:" ++ toString (5905 - 5900) :=
  ⟨by decide, by decide, vncValue_sub_of_ge 64 5905 (by decide) (by decide)⟩

/-- C9: the port embedded in the `-vnc` value is the `uint` difference
`vncPort - 5900`, i.e. congruent to the integer difference modulo
`2 ^ w`; for a discovered port below 5900 the subtraction wraps around to
`2 ^ w - (5900 - p)` instead of failing or yielding a negative port. -/
theorem vnc_uint_wraparound (w p : Nat) (h1 : 5900 ≤ 2 ^ w) :
    vncValue w p = "0.0.0.0:" ++ toString (usub w p 5900)
      ∧ ((usub w p 5900 : Nat) : Int) = ((p : Int) - 5900) % ((2 : Int) ^ w)
      ∧ (p < 5900 → usub w p 5900 = 2 ^ w - (5900 - p)) :=
  ⟨rfl, usub_emod_int w p h1, fun h3 => usub_wrap w p h1 h3⟩

theorem vnc_uint_wraparound_witness :
    5900 ≤ 2 ^ 32
      ∧ (vncValue 32 70 = "0.0.0.0:" ++ toString (usub 32 70 5900)
        ∧ ((usub 32 70 5900 : Nat) : Int) = ((70 : Int) - 5900) % ((2 : Int) ^ 32)
        ∧ (70 < 5900 → usub 32 70 5900 = 2 ^ 32 - (5900 - 70))) :=
  ⟨by decide, vnc_uint_wraparound 32 70 (by decide)⟩

/-- C8: `Cleanup` requests the supervisor stop exactly once; when the
stop call fails, the error is reported through the UI sink and nothing
further happens (the trace ends there — `cleanup` is a total function
into a plain trace, so it always returns normally); on success only the
stop call happens. -/
theorem cleanup_stop_once_best_effort (e : String) :
    (cleanup (Except.error e)).count CleanupEvent.stopCall = 1
      ∧ cleanup (Except.error e) =
          [CleanupEvent.stopCall, CleanupEvent.uiError ("Error shutting down VM: " ++ e)]
      ∧ cleanup (Except.ok ()) = [CleanupEvent.stopCall]
      ∧ (cleanup (Except.ok ())).count CleanupEvent.stopCall = 1 := by
  refine ⟨?_, rfl, rfl, by decide⟩
  simp [cleanup, List.count_cons, List.count_nil]

theorem cleanup_stop_once_best_effort_witness :
    (cleanup (Except.error "device is busy")).count CleanupEvent.stopCall = 1
      ∧ cleanup (Except.error "device is busy") =
          [CleanupEvent.stopCall,
            CleanupEvent.uiError ("Error shutting down VM: " ++ "device is busy")]
      ∧ cleanup (Except.ok ()) = [CleanupEvent.stopCall]
      ∧ (cleanup (Except.ok ())).count CleanupEvent.stopCall = 1 :=
  cleanup_stop_once_best_effort "device is busy"

/-- C6: with the headless flag set, the default map has no `-display`
key and the headless warning is emitted exactly once; with it unset,
`-display` defaults to `sdl` and the headless warning is not emitted. -/
theorem headless_display_warning (w : Nat) (bootDrive : String) (c : Config) (st : RunState) :
    (c.Headless = true →
        lookupKey "-display" (buildDefaultArgs w bootDrive c st).1 = none
        ∧ ((buildDefaultArgs w bootDrive c st).2).count headlessWarning = 1)
    ∧ (c.Headless = false →
        lookupKey "-display" (buildDefaultArgs w bootDrive c st).1 = some "sdl"
        ∧ ((buildDefaultArgs w bootDrive c st).2).count headlessWarning = 0) := by
  obtain ⟨VN, MT, ND, DI, DC, DD, DImg, H, Acc, Fmt, OD, HD, QA⟩ := c
  have hne : (accelWarning == headlessWarning) = false := by decide
  cases H <;> cases DImg <;> by_cases hA : Acc = "none" <;> cases hf : st.floppyPath <;>
    simp [buildDefaultArgs, hA, hf, lookupKey_setKey, lookupKey_cons,
      List.count_cons, List.count_nil, hne]

theorem headless_display_warning_witness :
    ((mkConfig true []).Headless = true →
        lookupKey "-display" (buildDefaultArgs 64 "c" (mkConfig true []) stExample).1 = none
        ∧ ((buildDefaultArgs 64 "c" (mkConfig true []) stExample).2).count headlessWarning = 1)
    ∧ ((mkConfig true []).Headless = false →
        lookupKey "-display" (buildDefaultArgs 64 "c" (mkConfig true []) stExample).1 = some "sdl"
        ∧ ((buildDefaultArgs 64 "c" (mkConfig true []) stExample).2).count headlessWarning = 0) :=
  headless_display_warning 64 "c" (mkConfig true []) stExample

/-- C1: for every override spec (`rows` is whatever `processArgs`
renders `c.QemuArgs` to — including the empty spec, where the
no-override branch of `getCommandArgs` is taken and `rows = []`) and
every default spec, the token sequence `getCommandArgs` returns is the
entry-wise emission of the merged map, which has exactly one entry per
key of the union of override and default keys (each emitted as one
key/value pair per value in its bucket, or once bare when the bucket is
empty); and the bucket of every key present in the override rows is
derived from the override rows alone — the default value for such a key
is dropped, even when the override's rendered values are all empty. -/
theorem getCommandArgs_union_exact
    (render : String → Except String String) (w : Nat) (bootDrive : String)
    (c : Config) (st : RunState) (rows : List (String × List String))
    (defaults : List (String × String)) (k : String)
    (hq : processArgs render c.QemuArgs = Except.ok rows)
    (hd : (buildDefaultArgs w bootDrive c st).1 = defaults) :
    (getCommandArgs render w bootDrive c st).1 = Except.ok (mergeTokens rows defaults)
      ∧ mergeTokens rows defaults = emitAll (mergeArgs rows defaults)
      ∧ (keysOf (mergeArgs rows defaults)).Nodup
      ∧ (k ∈ keysOf (mergeArgs rows defaults) ↔ k ∈ keysOf rows ∨ k ∈ keysOf defaults)
      ∧ (k ∈ keysOf rows →
          lookupKey k (mergeArgs rows defaults) = some (overrideVals k rows)) := by
  refine ⟨?_, ?_, nodup_keysOf_mergeArgs rows defaults, mem_keysOf_mergeArgs rows defaults k, ?_⟩
  · by_cases hlen : 0 < c.QemuArgs.length
    · simp only [getCommandArgs]
      rw [if_pos hlen, hq, hd]
    · have hnil : c.QemuArgs = [] := List.length_eq_zero.mp (Nat.eq_zero_of_not_pos hlen)
      have hrows : rows = [] := by
        rw [hnil] at hq
        simp only [processArgs] at hq
        injection hq with h
        exact h.symm
      subst hrows
      simp only [getCommandArgs]
      rw [if_neg hlen, hd]
  · rw [mergeTokens, flattenArgs_eq_emitAll]
  · intro hk
    rw [lookupKey_mergeArgs, if_pos hk]

theorem getCommandArgs_union_exact_witness :
    (processArgs renderId cfgOverride.QemuArgs =
        Except.ok [("-machine", ["type=pc,accel=kvm"])]
      ∧ (buildDefaultArgs 64 "c" cfgOverride stExample).1 = defaultsExample
      ∧ ((getCommandArgs renderId 64 "c" cfgOverride stExample).1 =
            Except.ok (mergeTokens [("-machine", ["type=pc,accel=kvm"])] defaultsExample)
          ∧ mergeTokens [("-machine", ["type=pc,accel=kvm"])] defaultsExample =
              emitAll (mergeArgs [("-machine", ["type=pc,accel=kvm"])] defaultsExample)
          ∧ (keysOf (mergeArgs [("-machine", ["type=pc,accel=kvm"])] defaultsExample)).Nodup
          ∧ ("-machine" ∈ keysOf (mergeArgs [("-machine", ["type=pc,accel=kvm"])] defaultsExample)
              ↔ "-machine" ∈ keysOf [("-machine", (["type=pc,accel=kvm"] : List String))]
                ∨ "-machine" ∈ keysOf defaultsExample)
          ∧ ("-machine" ∈ keysOf [("-machine", (["type=pc,accel=kvm"] : List String))] →
              lookupKey "-machine" (mergeArgs [("-machine", ["type=pc,accel=kvm"])] defaultsExample)
                = some (overrideVals "-machine" [("-machine", ["type=pc,accel=kvm"])]))))
    ∧ (processArgs renderId cfgEmpty.QemuArgs = Except.ok []
      ∧ (buildDefaultArgs 64 "c" cfgEmpty stExample).1 = defaultsEmpty
      ∧ ((getCommandArgs renderId 64 "c" cfgEmpty stExample).1 =
            Except.ok (mergeTokens [] defaultsEmpty)
          ∧ mergeTokens [] defaultsEmpty = emitAll (mergeArgs [] defaultsEmpty)
          ∧ (keysOf (mergeArgs [] defaultsEmpty)).Nodup
          ∧ ("-m" ∈ keysOf (mergeArgs [] defaultsEmpty)
              ↔ "-m" ∈ keysOf ([] : List (String × List String))
                ∨ "-m" ∈ keysOf defaultsEmpty)
          ∧ ("-m" ∈ keysOf ([] : List (String × List String)) →
              lookupKey "-m" (mergeArgs [] defaultsEmpty)
                = some (overrideVals "-m" [])))) :=
  ⟨⟨rfl, rfl,
      getCommandArgs_union_exact renderId 64 "c" cfgOverride stExample
        [("-machine", ["type=pc,accel=kvm"])] defaultsExample "-machine" rfl rfl⟩,
    ⟨rfl, rfl,
      getCommandArgs_union_exact renderId 64 "c" cfgEmpty stExample
        [] defaultsEmpty "-m" rfl rfl⟩⟩

/-- C2: a key `k` occurring in the override rows with at least one
non-empty rendered value has exactly one entry in the merged map, whose
bucket is the list of `k`'s non-empty rendered concatenated values in
first-seen order, and the token sequence contains exactly that run of
key/value pairs for the entry (`emitPairs` emits one `k, v` pair per
value, in order). -/
theorem mergeTokens_repeated_key_pairs (rows : List (String × List String))
    (defaults : List (String × String)) (k : String)
    (hk : k ∈ keysOf rows) (hne : overrideVals k rows ≠ []) :
    lookupKey k (mergeArgs rows defaults) = some (overrideVals k rows)
      ∧ mergeArgs rows defaults =
          beforeKey k (mergeArgs rows defaults) ++
            (k, overrideVals k rows) :: afterKey k (mergeArgs rows defaults)
      ∧ k ∉ keysOf (beforeKey k (mergeArgs rows defaults))
      ∧ k ∉ keysOf (afterKey k (mergeArgs rows defaults))
      ∧ mergeTokens rows defaults =
          emitAll (beforeKey k (mergeArgs rows defaults)) ++
            emitPairs k (overrideVals k rows) ++
            emitAll (afterKey k (mergeArgs rows defaults)) := by
  have hl : lookupKey k (mergeArgs rows defaults) = some (overrideVals k rows) := by
    rw [lookupKey_mergeArgs, if_pos hk]
  obtain ⟨hdec, hb, ha, htok⟩ := mergeTokens_decomp rows defaults k (overrideVals k rows) hl
  refine ⟨hl, hdec, hb, ha, ?_⟩
  rw [htok, emitEntry_of_pos k (overrideVals k rows) (List.length_pos.mpr hne)]

theorem mergeTokens_repeated_key_pairs_witness :
    "-device" ∈ keysOf [("-device", (["virtio-net"] : List String)), ("-device", ["e1000"])]
      ∧ overrideVals "-device" [("-device", ["virtio-net"]), ("-device", ["e1000"])] ≠ []
      ∧ (lookupKey "-device"
            (mergeArgs [("-device", ["virtio-net"]), ("-device", ["e1000"])] [("-m", "512M")])
          = some (overrideVals "-device" [("-device", ["virtio-net"]), ("-device", ["e1000"])])
        ∧ mergeArgs [("-device", ["virtio-net"]), ("-device", ["e1000"])] [("-m", "512M")] =
            beforeKey "-device"
                (mergeArgs [("-device", ["virtio-net"]), ("-device", ["e1000"])] [("-m", "512M")]) ++
              ("-device",
                  overrideVals "-device" [("-device", ["virtio-net"]), ("-device", ["e1000"])]) ::
                afterKey "-device"
                  (mergeArgs [("-device", ["virtio-net"]), ("-device", ["e1000"])] [("-m", "512M")])
        ∧ "-device" ∉ keysOf (beforeKey "-device"
            (mergeArgs [("-device", ["virtio-net"]), ("-device", ["e1000"])] [("-m", "512M")]))
        ∧ "-device" ∉ keysOf (afterKey "-device"
            (mergeArgs [("-device", ["virtio-net"]), ("-device", ["e1000"])] [("-m", "512M")]))
        ∧ mergeTokens [("-device", ["virtio-net"]), ("-device", ["e1000"])] [("-m", "512M")] =
            emitAll (beforeKey "-device"
                (mergeArgs [("-device", ["virtio-net"]), ("-device", ["e1000"])] [("-m", "512M")])) ++
              emitPairs "-device"
                (overrideVals "-device" [("-device", ["virtio-net"]), ("-device", ["e1000"])]) ++
              emitAll (afterKey "-device"
                (mergeArgs [("-device", ["virtio-net"]), ("-device", ["e1000"])] [("-m", "512M")]))) :=
  ⟨by decide, by decide,
    mergeTokens_repeated_key_pairs [("-device", ["virtio-net"]), ("-device", ["e1000"])]
      [("-m", "512M")] "-device" (by decide) (by decide)⟩

/-- C3: a key `k` whose override rows all render to empty concatenated
values still claims its merged-map entry, with an empty bucket: the
token sequence contains the single bare token `k` for that entry, and no
default backfill happens for `k` (its bucket is `[]`, not the default's
one-element list). -/
theorem mergeTokens_bare_flag (rows : List (String × List String))
    (defaults : List (String × String)) (k : String)
    (hk : k ∈ keysOf rows) (hempty : overrideVals k rows = []) :
    lookupKey k (mergeArgs rows defaults) = some []
      ∧ mergeArgs rows defaults =
          beforeKey k (mergeArgs rows defaults) ++
            (k, ([] : List String)) :: afterKey k (mergeArgs rows defaults)
      ∧ k ∉ keysOf (beforeKey k (mergeArgs rows defaults))
      ∧ k ∉ keysOf (afterKey k (mergeArgs rows defaults))
      ∧ mergeTokens rows defaults =
          emitAll (beforeKey k (mergeArgs rows defaults)) ++ [k] ++
            emitAll (afterKey k (mergeArgs rows defaults)) := by
  have hl : lookupKey k (mergeArgs rows defaults) = some [] := by
    rw [lookupKey_mergeArgs, if_pos hk, hempty]
  obtain ⟨hdec, hb, ha, htok⟩ := mergeTokens_decomp rows defaults k [] hl
  refine ⟨hl, hdec, hb, ha, ?_⟩
  rw [htok, emitEntry_of_empty]

theorem mergeTokens_bare_flag_witness :
    "-display" ∈ keysOf [("-display", ([""] : List String))]
      ∧ overrideVals "-display" [("-display", [""])] = []
      ∧ (lookupKey "-display" (mergeArgs [("-display", [""])] [("-display", "sdl")]) = some []
        ∧ mergeArgs [("-display", [""])] [("-display", "sdl")] =
            beforeKey "-display" (mergeArgs [("-display", [""])] [("-display", "sdl")]) ++
              ("-display", ([] : List String)) ::
                afterKey "-display" (mergeArgs [("-display", [""])] [("-display", "sdl")])
        ∧ "-display" ∉ keysOf
            (beforeKey "-display" (mergeArgs [("-display", [""])] [("-display", "sdl")]))
        ∧ "-display" ∉ keysOf
            (afterKey "-display" (mergeArgs [("-display", [""])] [("-display", "sdl")]))
        ∧ mergeTokens [("-display", [""])] [("-display", "sdl")] =
            emitAll (beforeKey "-display"
                (mergeArgs [("-display", [""])] [("-display", "sdl")])) ++ ["-display"] ++
              emitAll (afterKey "-display"
                (mergeArgs [("-display", [""])] [("-display", "sdl")]))) :=
  ⟨by decide, by decide,
    mergeTokens_bare_flag [("-display", [""])] [("-display", "sdl")] "-display"
      (by decide) (by decide)⟩

/-- C10: a default key absent from the override rows is backfilled with
a one-element bucket holding its default value, and is emitted as a
key/value token pair even when that value is the empty string — never as
a bare flag (unlike empty override values, which are dropped from the
bucket at ingestion). -/
theorem default_empty_value_pair (rows : List (String × List String))
    (defaults : List (String × String)) (k v : String)
    (hk : k ∉ keysOf rows) (hv : lookupKey k defaults = some v) :
    lookupKey k (mergeArgs rows defaults) = some [v]
      ∧ mergeArgs rows defaults =
          beforeKey k (mergeArgs rows defaults) ++
            (k, [v]) :: afterKey k (mergeArgs rows defaults)
      ∧ k ∉ keysOf (beforeKey k (mergeArgs rows defaults))
      ∧ k ∉ keysOf (afterKey k (mergeArgs rows defaults))
      ∧ mergeTokens rows defaults =
          emitAll (beforeKey k (mergeArgs rows defaults)) ++ [k, v] ++
            emitAll (afterKey k (mergeArgs rows defaults)) := by
  have hl : lookupKey k (mergeArgs rows defaults) = some [v] := by
    rw [lookupKey_mergeArgs, if_neg hk, hv]
    rfl
  obtain ⟨hdec, hb, ha, htok⟩ := mergeTokens_decomp rows defaults k [v] hl
  refine ⟨hl, hdec, hb, ha, ?_⟩
  rw [htok]
  have hone : emitEntry (k, [v]) = [k, v] := rfl
  rw [hone]

theorem default_empty_value_pair_witness :
    "-boot" ∉ keysOf [("-device", (["x"] : List String))]
      ∧ lookupKey "-boot" [("-boot", "")] = some ""
      ∧ (lookupKey "-boot" (mergeArgs [("-device", ["x"])] [("-boot", "")]) = some [""]
        ∧ mergeArgs [("-device", ["x"])] [("-boot", "")] =
            beforeKey "-boot" (mergeArgs [("-device", ["x"])] [("-boot", "")]) ++
              ("-boot", [""]) :: afterKey "-boot" (mergeArgs [("-device", ["x"])] [("-boot", "")])
        ∧ "-boot" ∉ keysOf (beforeKey "-boot" (mergeArgs [("-device", ["x"])] [("-boot", "")]))
        ∧ "-boot" ∉ keysOf (afterKey "-boot" (mergeArgs [("-device", ["x"])] [("-boot", "")]))
        ∧ mergeTokens [("-device", ["x"])] [("-boot", "")] =
            emitAll (beforeKey "-boot" (mergeArgs [("-device", ["x"])] [("-boot", "")])) ++
              ["-boot", ""] ++
              emitAll (afterKey "-boot" (mergeArgs [("-device", ["x"])] [("-boot", "")]))) :=
  ⟨by decide, by decide,
    default_empty_value_pair [("-device", ["x"])] [("-boot", "")] "-boot" ""
      (by decide) (by decide)⟩

/-- C5: synthesis is deterministic in the per-key view: however Go's map
iteration orders the default backfill (`d₁` vs `d₂`, two orders of the
same default map) and the final flattening (`p₁`, `p₂`, arbitrary orders
of the merged map of each run), the mapping from flag key to its ordered
value bucket is identical between the two runs. -/
theorem synthesis_buckets_deterministic (rows : List (String × List String))
    (d₁ d₂ : List (String × String)) (p₁ p₂ : List (String × List String)) (k : String)
    (hperm : d₁.Perm d₂) (hnd : (keysOf d₁).Nodup)
    (h₁ : p₁.Perm (mergeArgs rows d₁)) (h₂ : p₂.Perm (mergeArgs rows d₂)) :
    lookupKey k p₁ = lookupKey k p₂ := by
  have hnd₁ : (keysOf p₁).Nodup :=
    (h₁.map Prod.fst).nodup_iff.mpr (nodup_keysOf_mergeArgs rows d₁)
  have hnd₂ : (keysOf p₂).Nodup :=
    (h₂.map Prod.fst).nodup_iff.mpr (nodup_keysOf_mergeArgs rows d₂)
  rw [lookupKey_eq_of_perm k p₁ (mergeArgs rows d₁) h₁ hnd₁,
    lookupKey_eq_of_perm k p₂ (mergeArgs rows d₂) h₂ hnd₂,
    lookupKey_mergeArgs rows d₁ k, lookupKey_mergeArgs rows d₂ k,
    lookupKey_eq_of_perm k d₁ d₂ hperm hnd]

theorem synthesis_buckets_deterministic_witness :
    dW1.Perm dW2 ∧ (keysOf dW1).Nodup
      ∧ (mergeArgs rowsW dW1).Perm (mergeArgs rowsW dW1)
      ∧ ((mergeArgs rowsW dW2).reverse).Perm (mergeArgs rowsW dW2)
      ∧ lookupKey "-m" (mergeArgs rowsW dW1) = lookupKey "-m" ((mergeArgs rowsW dW2).reverse) :=
  ⟨by decide, by decide, List.Perm.refl _, (mergeArgs rowsW dW2).reverse_perm,
    synthesis_buckets_deterministic rowsW dW1 dW2 (mergeArgs rowsW dW1)
      ((mergeArgs rowsW dW2).reverse) "-m" (by decide) (by decide)
      (List.Perm.refl _) ((mergeArgs rowsW dW2).reverse_perm)⟩

/-- C4: if rendering any fragment of any override row fails, then
`processArgs` returns a renderer error, `getCommandArgs` returns that
same error in place of a token sequence, and no (even partial) token
sequence is produced. -/
theorem processArgs_error_aborts (render : String → Except String String) (w : Nat)
    (bootDrive : String) (c : Config) (st : RunState)
    (h : ∃ row ∈ c.QemuArgs,
        (∃ e, render row.1 = Except.error e) ∨ ∃ f ∈ row.2, ∃ e, render f = Except.error e) :
    ∃ e, processArgs render c.QemuArgs = Except.error e
      ∧ (getCommandArgs render w bootDrive c st).1 = Except.error e := by
  obtain ⟨e, he⟩ := processArgs_error_of_fragment render c.QemuArgs h
  have hlen : 0 < c.QemuArgs.length := by
    obtain ⟨row, hmem, _⟩ := h
    exact List.length_pos.mpr (List.ne_nil_of_mem hmem)
  refine ⟨e, he, ?_⟩
  simp only [getCommandArgs]
  rw [if_pos hlen, he]

theorem processArgs_error_aborts_witness :
    (∃ row ∈ cfgBad.QemuArgs,
        (∃ e, renderBad row.1 = Except.error e) ∨ ∃ f ∈ row.2, ∃ e, renderBad f = Except.error e)
      ∧ ∃ e, processArgs renderBad cfgBad.QemuArgs = Except.error e
          ∧ (getCommandArgs renderBad 64 "c" cfgBad stExample).1 = Except.error e := by
  have h : ∃ row ∈ cfgBad.QemuArgs,
      (∃ e, renderBad row.1 = Except.error e) ∨
        ∃ f ∈ row.2, ∃ e, renderBad f = Except.error e := by
    refine ⟨("-device", ["BAD"]), by decide, Or.inr ⟨"BAD", by decide, "missing placeholder", rfl⟩⟩
  exact ⟨h, processArgs_error_aborts renderBad 64 "c" cfgBad stExample h⟩

end StepRun
